import Mathlib

/-!
Verification of the atomic reference-counting primitives of
src/src/libstrongswan/utils/utils.h.

The counter type is `typedef u_int refcount_t`, an unsigned 32-bit
word, so counter contents are natural numbers below `M = 2 ^ 32` and
every arithmetic step is taken modulo `M`.

Each primitive acts on a single memory cell; we embed it as a pure
function from the cell contents to the pair (new cell contents,
returned value):

* `ref_get`  embeds  `__atomic_add_fetch(ref, 1, __ATOMIC_RELAXED)`
* `ref_put`  embeds  `(!__atomic_sub_fetch(ref, 1, __ATOMIC_ACQ_REL))`
* `ref_cur`  embeds  `__atomic_load_n(ref, __ATOMIC_RELAXED)`
* `_cas_impl` embeds `__atomic_compare_exchange_n(ptr, &_old, newval,
  FALSE, __ATOMIC_SEQ_CST, __ATOMIC_RELAXED)` where `_old` is a local
  copy of `oldval` (the macro discards the updated `_old`, so only the
  boolean result and the cell contents are observable)

The `__sync` fallback variants of the same macros are embedded
separately (`ref_get_sync` etc.) so the two builtin-based
implementations can be compared.
-/

namespace Strongswan

/-- Modulus of the unsigned word-sized counter type
`typedef u_int refcount_t` (32-bit `unsigned int`). -/
def M : Nat := 2 ^ 32

/-- `#define ref_get(ref) __atomic_add_fetch(ref, 1, __ATOMIC_RELAXED)`:
add 1 to the cell modulo `M`; the returned value is the new cell
contents. Result pair: (new cell contents, returned value). -/
def ref_get (c : Nat) : Nat × Nat :=
  let v := (c + 1) % M
  (v, v)

/-- `#define ref_put(ref) (!__atomic_sub_fetch(ref, 1, __ATOMIC_ACQ_REL))`:
subtract 1 from the cell modulo `M` (unsigned wraparound) and return
the logical negation of the new contents, i.e. `true` exactly when the
new contents are 0. Result pair: (new cell contents, returned value). -/
def ref_put (c : Nat) : Nat × Bool :=
  let v := (c + (M - 1)) % M
  (v, decide (v = 0))

/-- `#define ref_cur(ref) __atomic_load_n(ref, __ATOMIC_RELAXED)`:
return the cell contents, leaving the cell unchanged.
Result pair: (new cell contents, returned value). -/
def ref_cur (c : Nat) : Nat × Nat := (c, c)

/-- `#define _cas_impl(ptr, oldval, newval) ({ typeof(oldval) _old = oldval;
__atomic_compare_exchange_n(ptr, &_old, newval, FALSE, __ATOMIC_SEQ_CST,
__ATOMIC_RELAXED); })`: if the cell equals `old`, write `new` and
return `true`; otherwise leave the cell unchanged and return `false`
(the updated local `_old` is discarded by the macro).
Result pair: (new cell contents, returned value). -/
def _cas_impl {α : Type} [DecidableEq α] (cur old new : α) : α × Bool :=
  if cur = old then (new, true) else (cur, false)

/-- `#define cas_bool(ptr, oldval, newval) _cas_impl(ptr, oldval, newval)`. -/
def cas_bool (cur old new : Bool) : Bool × Bool := _cas_impl cur old new

/-- `#define cas_ptr(ptr, oldval, newval) _cas_impl(ptr, oldval, newval)`;
pointer values are modelled as addresses, i.e. natural numbers. -/
def cas_ptr (cur old new : Nat) : Nat × Bool := _cas_impl cur old new

/-- `#define ref_get(ref) __sync_add_and_fetch(ref, 1)` (the
`HAVE_GCC_SYNC_OPERATIONS` fallback): add 1 modulo `M`, return the new
contents. -/
def ref_get_sync (c : Nat) : Nat × Nat :=
  let v := (c + 1) % M
  (v, v)

/-- `#define ref_put(ref) (!__sync_sub_and_fetch(ref, 1))` (the
`HAVE_GCC_SYNC_OPERATIONS` fallback): subtract 1 modulo `M`, return
whether the new contents are 0. -/
def ref_put_sync (c : Nat) : Nat × Bool :=
  let v := (c + (M - 1)) % M
  (v, decide (v = 0))

/-- `#define ref_cur(ref) __sync_fetch_and_add(ref, 0)` (the
`HAVE_GCC_SYNC_OPERATIONS` fallback): add 0 to the cell modulo `M` and
return the previous contents. -/
def ref_cur_sync (c : Nat) : Nat × Nat := ((c + 0) % M, c)

/-- `#define cas_bool(ptr, oldval, newval)
(__sync_bool_compare_and_swap(ptr, oldval, newval))` (the
`HAVE_GCC_SYNC_OPERATIONS` fallback). -/
def cas_bool_sync (cur old new : Bool) : Bool × Bool :=
  if cur = old then (new, true) else (cur, false)

/-- `#define cas_ptr(ptr, oldval, newval)
(__sync_bool_compare_and_swap(ptr, oldval, newval))` (the
`HAVE_GCC_SYNC_OPERATIONS` fallback). -/
def cas_ptr_sync (cur old new : Nat) : Nat × Bool :=
  if cur = old then (new, true) else (cur, false)

/-- An operation of a single-threaded usage trace of one counter. -/
inductive Op where
  | get : Op
  | put : Op
deriving DecidableEq, Repr

/-- Number of `ref_get` calls in a trace. -/
def countGets : List Op → Nat
  | [] => 0
  | Op.get :: rest => countGets rest + 1
  | Op.put :: rest => countGets rest

/-- Number of `ref_put` calls in a trace. -/
def countPuts : List Op → Nat
  | [] => 0
  | Op.get :: rest => countPuts rest
  | Op.put :: rest => countPuts rest + 1

/-- Run a trace against a counter cell holding `c`. Result:
(final cell contents,
 number of `ref_put` calls that returned `true`,
 number of operations after which the cell contents were 0). -/
def runTrace (c : Nat) : List Op → Nat × Nat × Nat
  | [] => (c, 0, 0)
  | Op.get :: rest =>
    let v := (ref_get c).1
    let r := runTrace v rest
    (r.1, r.2.1, (if v = 0 then 1 else 0) + r.2.2)
  | Op.put :: rest =>
    let v := (ref_put c).1
    let r := runTrace v rest
    (r.1, (if (ref_put c).2 then 1 else 0) + r.2.1,
     (if v = 0 then 1 else 0) + r.2.2)

@[simp] theorem countGets_nil : countGets [] = 0 := rfl

@[simp] theorem countGets_cons_get (l : List Op) :
    countGets (Op.get :: l) = countGets l + 1 := rfl

@[simp] theorem countGets_cons_put (l : List Op) :
    countGets (Op.put :: l) = countGets l := rfl

@[simp] theorem countPuts_nil : countPuts [] = 0 := rfl

@[simp] theorem countPuts_cons_get (l : List Op) :
    countPuts (Op.get :: l) = countPuts l := rfl

@[simp] theorem countPuts_cons_put (l : List Op) :
    countPuts (Op.put :: l) = countPuts l + 1 := rfl

theorem M_pos : 0 < M := by decide

/-- Helper: `ref_get` written without the intermediate binding. -/
theorem ref_get_eq (c : Nat) :
    ref_get c = ((c + 1) % M, (c + 1) % M) := rfl

/-- Helper: `ref_put` written without the intermediate binding. -/
theorem ref_put_eq (c : Nat) :
    ref_put c = ((c + (M - 1)) % M, decide ((c + (M - 1)) % M = 0)) := rfl

/-- Helper: the new cell contents after `ref_get` on `c` with no
overflow. -/
theorem ref_get_fst (c : Nat) (h : c + 1 < M) : (ref_get c).1 = c + 1 := by
  rw [ref_get_eq]
  exact Nat.mod_eq_of_lt h

/-- Helper: the new cell contents after `ref_put` on a positive `c`
below the modulus. -/
theorem ref_put_fst (c : Nat) (h1 : 1 ≤ c) (h2 : c < M) :
    (ref_put c).1 = c - 1 := by
  rw [ref_put_eq]
  show (c + (M - 1)) % M = c - 1
  have he : c + (M - 1) = (c - 1) + M := by
    have := M_pos
    omega
  rw [he, Nat.add_mod_right]
  exact Nat.mod_eq_of_lt (by omega)

/-- Helper: the boolean returned by `ref_put` reports exactly whether
the new cell contents are zero. -/
theorem ref_put_snd (c : Nat) :
    (ref_put c).2 = decide ((ref_put c).1 = 0) := by
  rw [ref_put_eq]

/-- Claim C1: for every counter value, `ref_put` decrements the
counter by exactly 1 (modulo `M`, and exactly when the counter was
positive) and returns `true` if and only if the resulting counter
value is zero; the result pair is total, so there is no other effect
or failure mode. -/
theorem ref_put_spec (c : Nat) (hc : c < M) :
    ((ref_put c).1 + 1) % M = c
    ∧ ((ref_put c).2 = true ↔ (ref_put c).1 = 0)
    ∧ (1 ≤ c → (ref_put c).1 = c - 1)
    ∧ (ref_put c).1 < M := by
  refine ⟨?_, ?_, ?_, ?_⟩
  · rcases Nat.eq_zero_or_pos c with h0 | h1
    · subst h0
      rw [ref_put_eq]
      show ((0 + (M - 1)) % M + 1) % M = 0
      have hM1 : 0 + (M - 1) < M := by have := M_pos; omega
      rw [Nat.mod_eq_of_lt hM1]
      have hM2 : 0 + (M - 1) + 1 = M := by have := M_pos; omega
      rw [hM2, Nat.mod_self]
    · rw [ref_put_fst c h1 hc]
      have : c - 1 + 1 = c := by omega
      rw [this, Nat.mod_eq_of_lt hc]
  · rw [ref_put_snd]
    exact decide_eq_true_iff
  · intro h1
    exact ref_put_fst c h1 hc
  · exact Nat.mod_lt _ M_pos

/-- Witness for C1 at the concrete counter value 3. -/
theorem ref_put_spec_witness :
    ((ref_put 3).1 + 1) % M = 3
    ∧ ((ref_put 3).2 = true ↔ (ref_put 3).1 = 0)
    ∧ (1 ≤ 3 → (ref_put 3).1 = 3 - 1)
    ∧ (ref_put 3).1 < M :=
  ref_put_spec 3 (by decide)

/-- Claim C3: for every counter value, `ref_get` increments the
counter by exactly 1 (modulo `M`, and exactly when no wraparound
occurs) and returns the new value of the counter after the
increment. -/
theorem ref_get_spec (c : Nat) (hc : c < M) :
    (ref_get c).2 = (ref_get c).1
    ∧ (ref_get c).1 = (c + 1) % M
    ∧ (c + 1 < M → (ref_get c).1 = c + 1)
    ∧ (ref_get c).1 < M := by
  refine ⟨rfl, rfl, ?_, Nat.mod_lt _ M_pos⟩
  intro h
  exact ref_get_fst c h

/-- Witness for C3 at the concrete counter value 7. -/
theorem ref_get_spec_witness :
    (ref_get 7).2 = (ref_get 7).1
    ∧ (ref_get 7).1 = (7 + 1) % M
    ∧ (7 + 1 < M → (ref_get 7).1 = 7 + 1)
    ∧ (ref_get 7).1 < M :=
  ref_get_spec 7 (by decide)

/-- Claim C4: for every location, expected value and new value,
`_cas_impl` (hence `cas_bool` and `cas_ptr`, which are defined as
`_cas_impl`) returns `true` if and only if the current contents equal
the expected value; when it returns `true` the new value has been
written, and when it returns `false` the contents are unchanged. -/
theorem cas_spec {α : Type} [DecidableEq α] (cur old new : α) :
    ((_cas_impl cur old new).2 = true ↔ cur = old)
    ∧ ((_cas_impl cur old new).2 = true → (_cas_impl cur old new).1 = new)
    ∧ ((_cas_impl cur old new).2 = false → (_cas_impl cur old new).1 = cur) := by
  by_cases h : cur = old
  · simp [_cas_impl, h]
  · simp [_cas_impl, h]

/-- Witness for C4 at concrete boolean cell contents. -/
theorem cas_spec_witness :
    (((_cas_impl true true false).2 = true ↔ true = true)
      ∧ ((_cas_impl true true false).2 = true →
          (_cas_impl true true false).1 = false)
      ∧ ((_cas_impl true true false).2 = false →
          (_cas_impl true true false).1 = true))
    ∧ (((_cas_impl false true false).2 = true ↔ false = true)
      ∧ ((_cas_impl false true false).2 = true →
          (_cas_impl false true false).1 = false)
      ∧ ((_cas_impl false true false).2 = false →
          (_cas_impl false true false).1 = false)) :=
  ⟨cas_spec true true false, cas_spec false true false⟩

/-- Claim C5: starting from a counter holding 1, the trace
`ref_get; ref_put; ref_put` yields counter 2 after the get; the first
put brings the counter to 1 and returns `false`; the second put brings
the counter to 0 and returns `true`. -/
theorem trace_get_put_put :
    ref_get 1 = (2, 2)
    ∧ ref_put 2 = (1, false)
    ∧ ref_put 1 = (0, true) := by decide

/-- Claim C7: for every counter value, `ref_cur` returns the current
counter value and leaves the counter unchanged. -/
theorem ref_cur_spec (c : Nat) : ref_cur c = (c, c) := rfl

/-- Claim C9: `refcount_t` is an unsigned word, so `ref_put` on a
counter already holding 0 wraps around to the maximum value
`M - 1 = 2 ^ 32 - 1` and returns `false`: a double release is not
reported as the last reference. -/
theorem ref_put_zero_wraps : ref_put 0 = (M - 1, false) := by decide

/-- Claim C10: the `__atomic` variant and the `__sync` variant of each
primitive compute the same value-level function: identical returned
values and identical resulting cell contents. -/
theorem variants_agree (c : Nat) (hc : c < M) (b1 b2 b3 : Bool)
    (p1 p2 p3 : Nat) :
    ref_get c = ref_get_sync c
    ∧ ref_put c = ref_put_sync c
    ∧ ref_cur c = ref_cur_sync c
    ∧ cas_bool b1 b2 b3 = cas_bool_sync b1 b2 b3
    ∧ cas_ptr p1 p2 p3 = cas_ptr_sync p1 p2 p3 := by
  refine ⟨rfl, rfl, ?_, ?_, ?_⟩
  · simp [ref_cur, ref_cur_sync, Nat.mod_eq_of_lt hc]
  · by_cases h : b1 = b2 <;> simp [cas_bool, cas_bool_sync, _cas_impl, h]
  · by_cases h : p1 = p2 <;> simp [cas_ptr, cas_ptr_sync, _cas_impl, h]

/-- Helper: taking only part of a trace cannot increase its number of
`ref_get` calls. -/
theorem countGets_take_le : ∀ (l : List Op) (i : Nat),
    countGets (l.take i) ≤ countGets l
  | [], _ => by
      simp only [List.take_nil]
      exact Nat.le_refl _
  | _, 0 => by
      simp only [List.take_zero, countGets_nil]
      exact Nat.zero_le _
  | Op.get :: rest, i + 1 => by
      rw [List.take_succ_cons]
      simp only [countGets_cons_get]
      exact Nat.add_le_add_right (countGets_take_le rest i) 1
  | Op.put :: rest, i + 1 => by
      rw [List.take_succ_cons]
      simp only [countGets_cons_put]
      exact countGets_take_le rest i

/-- Helper: a trace that keeps the counter strictly positive before
every operation and drains it exactly to 0 (its number of puts equals
the starting value plus its number of gets) ends with the counter at
0, has exactly one `ref_put` that returned `true`, and passes through
counter value 0 exactly once. -/
theorem runTrace_drain : ∀ (l : List Op) (c : Nat), 1 ≤ c →
    c + countGets l < M →
    countPuts l = c + countGets l →
    (∀ i, i < l.length → countPuts (l.take i) < c + countGets (l.take i)) →
    runTrace c l = (0, 1, 1)
  | [], c, hc, _, hdrain, _ => by
      simp only [countPuts_nil, countGets_nil] at hdrain
      exact absurd hdrain (by omega)
  | Op.get :: rest, c, hc, hM, hdrain, hpre => by
      have hc1 : c + 1 < M := by
        simp only [countGets_cons_get] at hM
        omega
      have hv : (ref_get c).1 = c + 1 := ref_get_fst c hc1
      have ih : runTrace (c + 1) rest = (0, 1, 1) := by
        apply runTrace_drain rest (c + 1) (by omega)
        · simp only [countGets_cons_get] at hM
          omega
        · simp only [countPuts_cons_get, countGets_cons_get] at hdrain
          omega
        · intro i hi
          have h := hpre (i + 1) (by simp only [List.length_cons]; omega)
          rw [List.take_succ_cons] at h
          simp only [countPuts_cons_get, countGets_cons_get] at h
          omega
      simp only [runTrace, hv, ih]
      have hne : ¬(c + 1 = 0) := by omega
      simp [hne]
  | Op.put :: rest, c, hc, hM, hdrain, hpre => by
      have hcM : c < M := by
        simp only [countGets_cons_put] at hM
        omega
      have hv : (ref_put c).1 = c - 1 := ref_put_fst c hc hcM
      cases rest with
      | nil =>
          have hc1 : c = 1 := by
            simp only [countPuts_cons_put, countPuts_nil, countGets_cons_put,
              countGets_nil] at hdrain
            omega
          subst hc1
          have hv0 : (ref_put 1).1 = 0 := hv
          have hb : (ref_put 1).2 = true := by
            rw [ref_put_snd, hv0]
            decide
          simp only [runTrace, hv0, hb]
          simp
      | cons op rest2 =>
          have hc2 : 2 ≤ c := by
            have h := hpre 1 (by simp only [List.length_cons]; omega)
            have ht : (Op.put :: op :: rest2).take 1 = [Op.put] := rfl
            rw [ht] at h
            simp only [countPuts_cons_put, countPuts_nil, countGets_cons_put,
              countGets_nil] at h
            omega
          have ih : runTrace (c - 1) (op :: rest2) = (0, 1, 1) := by
            apply runTrace_drain (op :: rest2) (c - 1) (by omega)
            · simp only [countGets_cons_put] at hM
              omega
            · simp only [countPuts_cons_put, countGets_cons_put] at hdrain
              omega
            · intro i hi
              have h := hpre (i + 1) (by simp only [List.length_cons] at hi ⊢; omega)
              rw [List.take_succ_cons] at h
              simp only [countPuts_cons_put, countGets_cons_put] at h
              omega
          have hne : ¬(c - 1 = 0) := by omega
          have hb : (ref_put c).2 = false := by
            rw [ref_put_snd, hv]
            simp [hne]
          simp only [runTrace, hv, hb, ih]
          simp [hne]

/-- Helper: on a trace that never lets the number of puts exceed the
starting value plus the number of gets (counted over every initial
part), and whose gets cannot overflow the counter, the final counter
value is the starting value plus the gets minus the puts. -/
theorem runTrace_counter : ∀ (l : List Op) (c : Nat),
    c + countGets l < M →
    (∀ i, i ≤ l.length → countPuts (l.take i) ≤ c + countGets (l.take i)) →
    (runTrace c l).1 = c + countGets l - countPuts l
  | [], c, _, _ => by
      simp only [runTrace, countGets_nil, countPuts_nil]
      omega
  | Op.get :: rest, c, hM, hpre => by
      have hc1 : c + 1 < M := by
        simp only [countGets_cons_get] at hM
        omega
      have hv : (ref_get c).1 = c + 1 := ref_get_fst c hc1
      have ih := runTrace_counter rest (c + 1)
        (by simp only [countGets_cons_get] at hM; omega)
        (fun i hi => by
          have h := hpre (i + 1) (by simp only [List.length_cons]; omega)
          rw [List.take_succ_cons] at h
          simp only [countPuts_cons_get, countGets_cons_get] at h
          omega)
      simp only [runTrace, hv, ih, countGets_cons_get, countPuts_cons_get]
      omega
  | Op.put :: rest, c, hM, hpre => by
      have hc : 1 ≤ c := by
        have h := hpre 1 (by simp only [List.length_cons]; omega)
        have ht : (Op.put :: rest).take 1 = [Op.put] := rfl
        rw [ht] at h
        simp only [countPuts_cons_put, countPuts_nil, countGets_cons_put,
          countGets_nil] at h
        omega
      have hcM : c < M := by
        simp only [countGets_cons_put] at hM
        omega
      have hv : (ref_put c).1 = c - 1 := ref_put_fst c hc hcM
      have ih := runTrace_counter rest (c - 1)
        (by simp only [countGets_cons_put] at hM; omega)
        (fun i hi => by
          have h := hpre (i + 1) (by simp only [List.length_cons]; omega)
          rw [List.take_succ_cons] at h
          simp only [countPuts_cons_put, countGets_cons_put] at h
          omega)
      have hfull := hpre (rest.length + 1) (by simp only [List.length_cons]; omega)
      rw [List.take_succ_cons, List.take_length] at hfull
      simp only [countPuts_cons_put, countGets_cons_put] at hfull
      simp only [runTrace, hv, ih, countGets_cons_put, countPuts_cons_put]
      omega

/-- Claim C2 fails as stated: the trace `put; get; put` on a counter
initialized to 1 satisfies the stated interleaving condition (before
every operation the number of prior releases is at most the number of
prior holders, i.e. 1 plus the number of prior gets), has n = 1 gets
and n + 1 = 2 puts, yet two `ref_put` calls return `true` and the
counter reaches 0 twice. -/
theorem ref_put_unique_counterexample :
    countGets [Op.put, Op.get, Op.put] = 1
    ∧ countPuts [Op.put, Op.get, Op.put] = 1 + 1
    ∧ (∀ i, i < ([Op.put, Op.get, Op.put] : List Op).length →
        countPuts (([Op.put, Op.get, Op.put] : List Op).take i)
          ≤ 1 + countGets (([Op.put, Op.get, Op.put] : List Op).take i))
    ∧ (runTrace 1 [Op.put, Op.get, Op.put]).2.1 = 2
    ∧ (runTrace 1 [Op.put, Op.get, Op.put]).2.2 = 2 := by decide

/-- Claim C2 (amended): for a counter initialized to 1 and a trace of
n `ref_get` and n + 1 `ref_put` calls with n + 1 below the modulus,
interleaved so that before every operation the number of releases so
far is strictly smaller than the number of holders so far (1 plus the
gets so far), the trace ends with the counter at 0, exactly one
`ref_put` returns `true`, and the counter reaches 0 exactly once — and
by `ref_put_snd` a `ref_put` returns `true` exactly when it is the one
that brings the counter to 0. -/
theorem ref_put_unique_amended (n : Nat) (l : List Op)
    (hg : countGets l = n) (hp : countPuts l = n + 1) (hn : n + 1 < M)
    (hpre : ∀ i, i < l.length →
      countPuts (l.take i) < 1 + countGets (l.take i)) :
    runTrace 1 l = (0, 1, 1) := by
  apply runTrace_drain l 1 (by omega) (by omega) (by omega)
  intro i hi
  have h := hpre i hi
  omega

/-- Witness for the amended C2 on the trace `get; put; put`. -/
theorem ref_put_unique_amended_witness :
    runTrace 1 [Op.get, Op.put, Op.put] = (0, 1, 1) :=
  ref_put_unique_amended 1 [Op.get, Op.put, Op.put] (by decide) (by decide)
    (by decide) (by decide)

/-- Claim C6 fails as stated: after the one operation of the trace
`get` from initial value 1 the counter holds 2, while the number of
gets minus the number of puts is 1. -/
theorem counter_invariant_counterexample :
    ¬(countGets [Op.get] - countPuts [Op.get] = (runTrace 1 [Op.get]).1) := by
  decide

/-- Claim C6 (amended): in every single-threaded trace from initial
value 1 in which, at every point, the number of puts so far never
exceeds 1 plus the number of gets so far, and whose gets cannot
overflow the counter, at every point the counter equals its initial
value 1 plus the number of gets made so far minus the number of puts
made so far (the stated form, gets minus puts alone, is off by the
initial value 1). -/
theorem counter_invariant_amended (l : List Op) (i : Nat)
    (hM : 1 + countGets l < M)
    (hpre : ∀ j, j ≤ l.length → countPuts (l.take j) ≤ 1 + countGets (l.take j))
    (hi : i ≤ l.length) :
    (runTrace 1 (l.take i)).1
      = 1 + countGets (l.take i) - countPuts (l.take i) := by
  apply runTrace_counter (l.take i) 1
  · have h := countGets_take_le l i
    omega
  · intro j hj
    rw [List.length_take] at hj
    rw [List.take_take]
    exact hpre (min j i) (by omega)

/-- Witness for the amended C6 on the trace `get; put; put` after two
operations. -/
theorem counter_invariant_amended_witness :
    (runTrace 1 (([Op.get, Op.put, Op.put] : List Op).take 2)).1
      = 1 + countGets (([Op.get, Op.put, Op.put] : List Op).take 2)
        - countPuts (([Op.get, Op.put, Op.put] : List Op).take 2) :=
  counter_invariant_amended [Op.get, Op.put, Op.put] 2 (by decide) (by decide)
    (by decide)

/-- Witness for C10 at concrete cell contents. -/
theorem variants_agree_witness :
    ref_get 5 = ref_get_sync 5
    ∧ ref_put 5 = ref_put_sync 5
    ∧ ref_cur 5 = ref_cur_sync 5
    ∧ cas_bool true false true = cas_bool_sync true false true
    ∧ cas_ptr 4 4 9 = cas_ptr_sync 4 4 9 :=
  variants_agree 5 (by decide) true false true 4 4 9

end Strongswan
